import Mathlib

/-!
Verification of the order retrieval and pagination engine of the
campus-connect repository, embedded shallowly from
`src/services/shop.services.ts` (`OrderRepository`).

Modelling conventions:

* JavaScript strings are modelled as lists of Unicode code points
  (`Str := List Nat`).
* `Date` values are modelled as non-negative epoch-millisecond counts
  (`Nat`); `Date.prototype.toISOString` and ISO-8601 parsing are modelled
  by executable Gregorian-calendar functions below.
* The Prisma-backed order table is modelled as a `List Order` in physical
  (insertion) order.  `findMany` with an `orderBy` clause is modelled as a
  stable sort of the rows matching the `where` clause: rows that compare
  equal under the `orderBy` key are returned in table order (SQL leaves
  the relative order of such ties unspecified; the stable sort is one
  concrete realisation of that freedom).
* A call that throws at runtime (a Prisma validation error, or a
  JavaScript `TypeError` such as reading a property of `undefined`) is
  modelled as `none`.
-/

/-- A JavaScript string, as a list of Unicode code points. -/
abbrev Str := List Nat

/-- Code points of a Lean string literal, used to write concrete examples. -/
def strLit (s : String) : Str := s.data.map Char.toNat

/-- Lower-cases an ASCII letter code point, models the case folding that
`mode: "insensitive"` applies to the ASCII identifiers and addresses
stored by this application. -/
def lowerCp (c : Nat) : Nat :=
  if 65 ≤ c then if c ≤ 90 then c + 32 else c else c

/-- Lower-cases a string code point by code point. -/
def lowerStr (s : Str) : Str := s.map lowerCp

/-- Boolean test that `p` is a prefix of `s`. -/
def startsWithB : Str → Str → Bool
  | [], _ => true
  | _ :: _, [] => false
  | a :: as, b :: bs => a == b && startsWithB as bs

/-- Boolean test that `n` occurs as a contiguous substring of `s`;
models the SQL `contains` filter. -/
def hasSubstr (n : Str) : Str → Bool
  | [] => startsWithB n []
  | s@(_ :: t) => startsWithB n s || hasSubstr n t

/-- Case-insensitive substring test, models
`{ contains: term, mode: "insensitive" }`. -/
def containsCI (needle hay : Str) : Bool :=
  hasSubstr (lowerStr needle) (lowerStr hay)

/-- Strict lexicographic order on code-point lists, models the string
comparison the database applies to `id: { lt: ... }` filters. -/
def strLtB : Str → Str → Bool
  | [], [] => false
  | [], _ :: _ => true
  | _ :: _, [] => false
  | a :: as, b :: bs =>
    if a < b then true else if b < a then false else strLtB as bs

/-- Modelled from the spec: the enumerated, finite set of order statuses.
The Prisma enum lives in the generated client, which is not part of the
source tree; `CANCELLED` is the one member visible in `src` (in
`order-card-header.tsx`), the rest are representative members of the
"enumerated, finite set" the spec describes.  No claim depends on the
particular member names. -/
inductive OrderStatus where
  | PENDING
  | PROCESSING
  | SHIPPED
  | DELIVERED
  | CANCELLED
deriving DecidableEq, Repr

/-- One row of the order table, with the fields touched by the
`OrderRepository` operations.  `user_email` inlines the e-mail of the
associated user row reached through the `user` relation of
`orderWithDetailsInclude`. -/
structure Order where
  id : Str
  display_id : Str
  shop_id : Str
  user_id : Str
  user_email : Str
  order_status : OrderStatus
  total_price : Int
  created_at : Nat
  assigned_to : Option Str
  actual_delivery_time : Option Nat
  delivery_address_snapshot : Str
deriving DecidableEq, Repr

/-- An inclusive creation-date window, models the `dateRange` option
(`{ from: Date; to: Date }`). -/
structure DateRange where
  fromMs : Nat
  toMs : Nat
deriving DecidableEq, Repr

/-- The argument object of `getPaginatedShopOrders` and
`getPaginatedShopOrdersFromDB` (`GetPaginatedOrdersOptions`), with the
source's default `limit = 10`. -/
structure GetPaginatedOrdersOptions where
  shop_id : Str
  limit : Nat := 10
  cursor : Option Str := none
  searchTerm : Option Str := none
  orderStatus : Option OrderStatus := none
  dateRange : Option DateRange := none
deriving DecidableEq, Repr

/-- The result shape `{ orders, nextCursor? }` of both pagination
strategies. -/
structure PageResult where
  orders : List Order
  nextCursor : Option Str
deriving DecidableEq, Repr

/-- The search predicate built by both strategies when a search term is
present: an `OR` of case-insensitive substring matches against
`display_id`, `delivery_address_snapshot` and the related user's
`email`. -/
def searchMatch (s : Str) (o : Order) : Bool :=
  containsCI s o.display_id
    || containsCI s o.delivery_address_snapshot
    || containsCI s o.user_email

/-- The non-search part of the `where` clause shared by both strategies:
shop scope, optional status equality, optional inclusive date window. -/
def baseWhere (args : GetPaginatedOrdersOptions) (o : Order) : Bool :=
  o.shop_id == args.shop_id
    && (match args.orderStatus with
        | none => true
        | some st => o.order_status == st)
    && (match args.dateRange with
        | none => true
        | some r => decide (r.fromMs ≤ o.created_at)
            && decide (o.created_at ≤ r.toMs))

/-- The full `where` object built by `getPaginatedShopOrdersFromDB`:
`baseWhere` plus the search `OR` block, which is only added when
`searchTerm` is truthy (JavaScript truthiness: absent and empty strings
are both falsy). -/
def fromDBWhere (args : GetPaginatedOrdersOptions) (o : Order) : Bool :=
  baseWhere args o
    && (match args.searchTerm with
        | none => true
        | some s => if s = [] then true else searchMatch s o)

/-- Ordering relation of Strategy A's `orderBy: { created_at: desc }`:
`a` may precede `b` when `a` was created no earlier than `b`.  There is
no tie-break key in the source. -/
def leA (a b : Order) : Prop := b.created_at ≤ a.created_at

instance : DecidableRel leA := fun _ _ => inferInstanceAs (Decidable (_ ≤ _))

instance : IsTotal Order leA := ⟨fun a b => Nat.le_total b.created_at a.created_at⟩

instance : IsTrans Order leA := ⟨fun _ _ _ h1 h2 => Nat.le_trans h2 h1⟩

/-- Ordering relation of Strategy B's
`orderBy: [{ created_at: "desc" }, { id: "desc" }]`: `a` may precede `b`
when `a`'s `(created_at, id)` key is lexicographically no smaller than
`b`'s. -/
def leB (a b : Order) : Prop :=
  b.created_at < a.created_at
    ∨ (b.created_at = a.created_at ∧ (strLtB b.id a.id = true ∨ b.id = a.id))

instance : DecidableRel leB := fun _ _ => inferInstanceAs (Decidable (_ ∨ _))

/-- The database's `findMany` with an `orderBy` clause: the rows matching
the `where` clause, stably sorted by the `orderBy` relation (ties stay in
table order). -/
def dbQuery (db : List Order) (w : Order → Bool) (r : Order → Order → Prop)
    [DecidableRel r] : List Order :=
  List.insertionSort r (db.filter w)

/-- Strategy A, `OrderRepository.getPaginatedShopOrdersFromDB`
(shop.services.ts lines 572-628): delegate to Prisma's native cursor
primitive.  The cursor is a raw order id; Prisma positions the scan at
the row with that id and `skip: 1` skips that row; a cursor id matching
no row yields an empty result.  `take: limit + 1` fetches one extra row;
if it arrives, `pop()` removes it and its id becomes the next cursor. -/
def getPaginatedShopOrdersFromDB (db : List Order)
    (args : GetPaginatedOrdersOptions) : PageResult :=
  let sorted := dbQuery db (fromDBWhere args) leA
  let positioned :=
    match args.cursor with
    | none => sorted
    | some c =>
      match sorted.findIdx? (fun (o : Order) => o.id == c) with
      | none => []
      | some i => sorted.drop (i + 1)
  let orders := positioned.take (args.limit + 1)
  if args.limit < orders.length then
    { orders := orders.dropLast,
      nextCursor := orders.getLast?.map (fun o => o.id) }
  else
    { orders := orders, nextCursor := none }

/-! ### The cursor codec

Strategy B issues
`Buffer.from(JSON.stringify([lastOrder.created_at.toISOString(), lastOrder.id])).toString("base64")`
as the next cursor and consumes a cursor with
`JSON.parse(Buffer.from(cursor, "base64").toString("utf-8"))` followed by
`new Date(cursorData[0])` and `cursorData[1]`.  The pipeline is embedded
executable layer by layer: Gregorian-calendar ISO-8601 formatting and
parsing, UTF-8, base64, and JSON. -/

/-- Gregorian leap-year test. -/
def isLeap (y : Nat) : Bool :=
  (y % 4 == 0 && y % 100 != 0) || y % 400 == 0

/-- Number of days of year `y`. -/
def daysInYear (y : Nat) : Nat := if isLeap y then 366 else 365

/-- Month lengths of a (leap) year. -/
def monthLengths (leap : Bool) : List Nat :=
  [31, if leap then 29 else 28, 31, 30, 31, 30, 31, 31, 30, 31, 30, 31]

/-- Splits a day count since 1970-01-01 into the calendar year and the
zero-based day of that year, walking forward one year at a time; the
fuel argument (any number exceeding the day count) keeps the recursion
structural. -/
def yearSplitAux : Nat → Nat → Nat → Nat × Nat
  | 0, y, d => (y, d)
  | f + 1, y, d =>
    if d < daysInYear y then (y, d) else yearSplitAux f (y + 1) (d - daysInYear y)

/-- Calendar year and zero-based day of year of a day count since
1970-01-01. -/
def yearSplit (y d : Nat) : Nat × Nat := yearSplitAux (d + 1) y d

/-- Splits a zero-based day of year into a month number (starting at
`m0`) and a one-based day of month, walking the month-length list. -/
def monthSplit : List Nat → Nat → Nat → Nat × Nat
  | [], m, doy => (m, doy + 1)
  | len :: rest, m, doy =>
    if doy < len then (m, doy + 1) else monthSplit rest (m + 1) (doy - len)

/-- Days from a fixed proleptic-Gregorian origin to January 1 of year
`y`, in closed form (era/year-of-era arithmetic), so that ground
instances evaluate in constant depth. -/
def rawDays (y : Nat) : Nat :=
  let yp := y - 1
  let era := yp / 400
  let yoe := yp % 400
  era * 146097 + (yoe * 365 + yoe / 4 - yoe / 100) + 306

/-- Days from 1970-01-01 to January 1 of year `y`. -/
def daysUpTo (y : Nat) : Nat :=
  if y ≤ 1970 then 0 else rawDays y - rawDays 1970

/-- Zero-padded four decimal digits of `n < 10000` (code points). -/
def pad4 (n : Nat) : Str :=
  [48 + n / 1000 % 10, 48 + n / 100 % 10, 48 + n / 10 % 10, 48 + n % 10]

/-- Zero-padded three decimal digits of `n < 1000` (code points). -/
def pad3 (n : Nat) : Str :=
  [48 + n / 100 % 10, 48 + n / 10 % 10, 48 + n % 10]

/-- Zero-padded two decimal digits of `n < 100` (code points). -/
def pad2 (n : Nat) : Str := [48 + n / 10 % 10, 48 + n % 10]

/-- Epoch milliseconds of the latest instant printable with a four-digit
year, 9999-12-31T23:59:59.999Z; the bound under which the embedded
formatter agrees with `Date.prototype.toISOString`. -/
def isoMaxMs : Nat := 253402300799999

/-- Models `Date.prototype.toISOString` on an epoch-millisecond count:
the 24 code points of `YYYY-MM-DDTHH:mm:ss.sssZ`. -/
def msToIso (t : Nat) : Str :=
  let days := t / 86400000
  let rem := t % 86400000
  let yd := yearSplit 1970 days
  let md := monthSplit (monthLengths (isLeap yd.1)) 1 yd.2
  pad4 yd.1 ++ [45] ++ pad2 md.1 ++ [45] ++ pad2 md.2
    ++ [84] ++ pad2 (rem / 3600000) ++ [58]
    ++ pad2 (rem % 3600000 / 60000) ++ [58]
    ++ pad2 (rem % 60000 / 1000) ++ [46] ++ pad3 (rem % 1000)
    ++ [90]

/-- Numeric value of a decimal digit code point. -/
def digToNat (c : Nat) : Option Nat :=
  if 48 ≤ c ∧ c ≤ 57 then some (c - 48) else none

/-- Numeric value of four decimal digit code points. -/
def dig4 (a b c d : Nat) : Option Nat :=
  match digToNat a, digToNat b, digToNat c, digToNat d with
  | some x1, some x2, some x3, some x4 => some (((x1 * 10 + x2) * 10 + x3) * 10 + x4)
  | _, _, _, _ => none

/-- Numeric value of three decimal digit code points. -/
def dig3 (a b c : Nat) : Option Nat :=
  match digToNat a, digToNat b, digToNat c with
  | some x1, some x2, some x3 => some ((x1 * 10 + x2) * 10 + x3)
  | _, _, _ => none

/-- Numeric value of two decimal digit code points. -/
def dig2 (a b : Nat) : Option Nat :=
  match digToNat a, digToNat b with
  | some x1, some x2 => some (x1 * 10 + x2)
  | _, _ => none

/-- Epoch milliseconds denoted by parsed ISO-8601 fields. -/
def mkIsoMs (y m d hh mi ss ms : Nat) : Nat :=
  (daysUpTo y + ((monthLengths (isLeap y)).take (m - 1)).sum + (d - 1)) * 86400000
    + hh * 3600000 + mi * 60000 + ss * 1000 + ms

/-- Models the ISO-8601 arm of the `new Date(string)` parser on the
fixed-width `YYYY-MM-DDTHH:mm:ss.sssZ` shape that `toISOString`
produces, returning epoch milliseconds; any other string is treated as
an invalid date (`none`).  The model is exact on the image of
`msToIso`; alternative ISO spellings the JavaScript parser would also
accept never occur in the cursors this codec produces. -/
def parseIso (s : Str) : Option Nat :=
  match s with
  | [y1, y2, y3, y4, 45, m1, m2, 45, d1, d2, 84, h1, h2, 58, i1, i2, 58,
     s1, s2, 46, x1, x2, x3, 90] =>
    match dig4 y1 y2 y3 y4, dig2 m1 m2, dig2 d1 d2, dig2 h1 h2, dig2 i1 i2,
        dig2 s1 s2, dig3 x1 x2 x3 with
    | some y, some m, some d, some hh, some mi, some ss, some ms =>
      some (mkIsoMs y m d hh mi ss ms)
    | _, _, _, _, _, _, _ => none
  | _ => none

/-- UTF-8 bytes of one code point (< 0x110000). -/
def utf8EncodeChar (c : Nat) : List Nat :=
  if c < 128 then [c]
  else if c < 2048 then [192 + c / 64, 128 + c % 64]
  else if c < 65536 then [224 + c / 4096, 128 + c / 64 % 64, 128 + c % 64]
  else [240 + c / 262144, 128 + c / 4096 % 64, 128 + c / 64 % 64, 128 + c % 64]

/-- UTF-8 bytes of a string, models `Buffer.from(s)`. -/
def utf8Encode : Str → List Nat
  | [] => []
  | c :: cs => utf8EncodeChar c ++ utf8Encode cs

mutual

/-- Decodes UTF-8 bytes back into code points, as a two-state machine:
`utf8DecodeCont k val` still expects `k` continuation bytes for a code
point whose high bits are `val`.  `none` on malformed input. -/
def utf8Decode : List Nat → Option Str
  | [] => some []
  | b :: bs =>
    if b < 128 then (utf8Decode bs).map (b :: ·)
    else if 192 ≤ b ∧ b < 224 then utf8DecodeCont 1 (b - 192) bs
    else if 224 ≤ b ∧ b < 240 then utf8DecodeCont 2 (b - 224) bs
    else if 240 ≤ b ∧ b < 248 then utf8DecodeCont 3 (b - 240) bs
    else none

/-- Continuation-byte consumer of `utf8Decode`. -/
def utf8DecodeCont : Nat → Nat → List Nat → Option Str
  | _, _, [] => none
  | 0, _, _ :: _ => none
  | 1, val, b :: bs =>
    if 128 ≤ b ∧ b < 192 then
      (utf8Decode bs).map ((val * 64 + (b - 128)) :: ·)
    else none
  | k + 2, val, b :: bs =>
    if 128 ≤ b ∧ b < 192 then utf8DecodeCont (k + 1) (val * 64 + (b - 128)) bs
    else none

end

/-- Code point of base64 digit `n < 64` in the standard alphabet. -/
def b64Char (n : Nat) : Nat :=
  if n < 26 then 65 + n
  else if n < 52 then 97 + (n - 26)
  else if n < 62 then 48 + (n - 52)
  else if n = 62 then 43
  else 47

/-- Value of a base64 alphabet code point, `none` outside the
alphabet. -/
def b64Val (c : Nat) : Option Nat :=
  if 65 ≤ c ∧ c ≤ 90 then some (c - 65)
  else if 97 ≤ c ∧ c ≤ 122 then some (c - 71)
  else if 48 ≤ c ∧ c ≤ 57 then some (c + 4)
  else if c = 43 then some 62
  else if c = 47 then some 63
  else none

/-- Standard base64 of a byte list, models `buf.toString("base64")`. -/
def base64Encode : List Nat → Str
  | [] => []
  | [b0] => [b64Char (b0 / 4), b64Char (b0 % 4 * 16), 61, 61]
  | [b0, b1] =>
    [b64Char (b0 / 4), b64Char (b0 % 4 * 16 + b1 / 16), b64Char (b1 % 16 * 4), 61]
  | b0 :: b1 :: b2 :: bs =>
    b64Char (b0 / 4) :: b64Char (b0 % 4 * 16 + b1 / 16)
      :: b64Char (b1 % 16 * 4 + b2 / 64) :: b64Char (b2 % 64)
      :: base64Encode bs

/-- Base64 decoding back to bytes, `none` on input that is not a padded
base64 string. -/
def base64Decode : Str → Option (List Nat)
  | [] => some []
  | c0 :: c1 :: c2 :: c3 :: rest =>
    match b64Val c0, b64Val c1 with
    | some v0, some v1 =>
      if c2 = 61 then
        if c3 = 61 ∧ rest = [] ∧ v1 % 16 = 0 then some [v0 * 4 + v1 / 16]
        else none
      else
        match b64Val c2 with
        | some v2 =>
          if c3 = 61 then
            if rest = [] ∧ v2 % 4 = 0 then
              some [v0 * 4 + v1 / 16, v1 % 16 * 16 + v2 / 4]
            else none
          else
            match b64Val c3 with
            | some v3 =>
              (base64Decode rest).map
                (fun tl => (v0 * 4 + v1 / 16) :: (v1 % 16 * 16 + v2 / 4)
                  :: (v2 % 4 * 64 + v3) :: tl)
            | none => none
        | none => none
    | _, _ => none
  | _ => none

/-- Code point of hex digit `n < 16`, lower case, as emitted by
`JSON.stringify` in `\u00xx` escapes. -/
def hexDigit (n : Nat) : Nat := if n < 10 then 48 + n else 87 + n

/-- JSON string escaping of one code point, exactly as `JSON.stringify`
escapes string content: quote and backslash, the five short control
escapes, `\u00xx` for the remaining control characters, everything else
verbatim. -/
def escCp (c : Nat) : Str :=
  if c = 34 then [92, 34]
  else if c = 92 then [92, 92]
  else if c = 8 then [92, 98]
  else if c = 9 then [92, 116]
  else if c = 10 then [92, 110]
  else if c = 12 then [92, 102]
  else if c = 13 then [92, 114]
  else if c < 32 then [92, 117, 48, 48, hexDigit (c / 16), hexDigit (c % 16)]
  else [c]

/-- JSON string escaping of a whole string. -/
def escStr : Str → Str
  | [] => []
  | c :: cs => escCp c ++ escStr cs

/-- The text `JSON.stringify([a, b])` produces for two strings:
`["<escaped a>","<escaped b>"]` with no whitespace. -/
def jsonPairEncode (a b : Str) : Str :=
  [91, 34] ++ escStr a ++ [34, 44, 34] ++ escStr b ++ [34, 93]

/-- Shape of a parsed JSON value.  Only strings and arrays carry their
content: the cursor-consuming code only ever reads elements 0 and 1 of
an array of strings, so numbers and object bodies are validated
syntactically and then discarded. -/
inductive JsValue where
  | nullV
  | boolV
  | numV
  | strV (s : Str)
  | arrV (elems : List JsValue)
  | objV

/-- Drops JSON insignificant whitespace. -/
def skipWs : Str → Str
  | c :: rest =>
    if c = 32 ∨ c = 9 ∨ c = 10 ∨ c = 13 then skipWs rest else c :: rest
  | [] => []

/-- Value of a hex digit code point. -/
def hexVal (c : Nat) : Option Nat :=
  if 48 ≤ c ∧ c ≤ 57 then some (c - 48)
  else if 97 ≤ c ∧ c ≤ 102 then some (c - 87)
  else if 65 ≤ c ∧ c ≤ 70 then some (c - 55)
  else none

/-- Code point denoted by a single-character JSON escape. -/
def unescape (e : Nat) : Option Nat :=
  if e = 34 then some 34
  else if e = 92 then some 92
  else if e = 47 then some 47
  else if e = 98 then some 8
  else if e = 116 then some 9
  else if e = 110 then some 10
  else if e = 102 then some 12
  else if e = 114 then some 13
  else none

mutual

/-- Parses the body of a JSON string literal after the opening quote,
returning the unescaped content and the input after the closing
quote. -/
def parseStringBody : Str → Option (Str × Str)
  | [] => none
  | c :: rest =>
    if c = 34 then some ([], rest)
    else if c = 92 then parseEscape rest
    else if c < 32 then none
    else (parseStringBody rest).map (fun p => (c :: p.1, p.2))

/-- Parses what follows a backslash inside a JSON string literal. -/
def parseEscape : Str → Option (Str × Str)
  | [] => none
  | e :: rest1 =>
    if e = 117 then parseHex4 rest1
    else
      match unescape e with
      | some u => (parseStringBody rest1).map (fun p => (u :: p.1, p.2))
      | none => none

/-- Parses the four hex digits of a JSON unicode escape. -/
def parseHex4 : Str → Option (Str × Str)
  | h1 :: h2 :: h3 :: h4 :: rest2 =>
    match hexVal h1, hexVal h2, hexVal h3, hexVal h4 with
    | some v1, some v2, some v3, some v4 =>
      (parseStringBody rest2).map
        (fun p => ((((v1 * 16 + v2) * 16 + v3) * 16 + v4) :: p.1, p.2))
    | _, _, _, _ => none
  | _ => none

end

/-- Accepts one or more decimal digits, returning the rest. -/
def parseDigits1 : Str → Option Str
  | c :: rest =>
    if 48 ≤ c ∧ c ≤ 57 then
      some (match parseDigits1 rest with
            | some r => r
            | none => rest)
    else none
  | [] => none

/-- Accepts a JSON number (`-? int frac? exp?`), returning the rest; the
numeric value is discarded (see `JsValue`). -/
def parseNumberBody (s : Str) : Option Str := do
  let s := match s with
           | 45 :: r => r
           | _ => s
  let s ← match s with
          | 48 :: r => some r
          | c :: _ =>
            if 49 ≤ c ∧ c ≤ 57 then parseDigits1 s else none
          | [] => none
  let s ← match s with
          | 46 :: r => parseDigits1 r
          | _ => some s
  match s with
  | e :: r =>
    if e = 101 ∨ e = 69 then
      let r := match r with
               | 43 :: r2 => r2
               | 45 :: r2 => r2
               | _ => r
      parseDigits1 r
    else some (e :: r)
  | [] => some []

mutual

/-- Parses one JSON value (after skipping leading whitespace); the fuel
argument bounds the recursion and decreases at every nested parse. -/
def parseValue : Nat → Str → Option (JsValue × Str)
  | 0, _ => none
  | fuel + 1, s =>
    match skipWs s with
    | 110 :: 117 :: 108 :: 108 :: r => some (.nullV, r)
    | 116 :: 114 :: 117 :: 101 :: r => some (.boolV, r)
    | 102 :: 97 :: 108 :: 115 :: 101 :: r => some (.boolV, r)
    | 34 :: r => (parseStringBody r).map (fun p => (.strV p.1, p.2))
    | 91 :: r => parseArrayBody fuel r
    | 123 :: r => parseObjBody fuel r
    | s2 => (parseNumberBody s2).map (fun r => (.numV, r))

/-- Parses the remainder of a JSON array after the opening bracket. -/
def parseArrayBody : Nat → Str → Option (JsValue × Str)
  | 0, _ => none
  | fuel + 1, s =>
    match skipWs s with
    | 93 :: r => some (.arrV [], r)
    | s2 =>
      match parseValue fuel s2 with
      | some (v, r) => parseArrayTail fuel [v] r
      | none => none

/-- Parses the comma-separated continuation of a JSON array after its
first element. -/
def parseArrayTail : Nat → List JsValue → Str → Option (JsValue × Str)
  | 0, _, _ => none
  | fuel + 1, acc, s =>
    match skipWs s with
    | 93 :: r => some (.arrV acc.reverse, r)
    | 44 :: r =>
      match parseValue fuel r with
      | some (v, r2) => parseArrayTail fuel (v :: acc) r2
      | none => none
    | _ => none

/-- Parses the remainder of a JSON object after the opening brace; the
members are validated and discarded. -/
def parseObjBody : Nat → Str → Option (JsValue × Str)
  | 0, _ => none
  | fuel + 1, s =>
    match skipWs s with
    | 125 :: r => some (.objV, r)
    | s2 => parseObjMember fuel s2

/-- Parses one quoted key, colon, value member of a JSON object and the
comma or closing brace after it. -/
def parseObjMember : Nat → Str → Option (JsValue × Str)
  | 0, _ => none
  | fuel + 1, s =>
    match skipWs s with
    | 34 :: r =>
      match parseStringBody r with
      | some (_, r1) =>
        match skipWs r1 with
        | 58 :: r2 =>
          match parseValue fuel r2 with
          | some (_, r3) =>
            match skipWs r3 with
            | 125 :: r4 => some (.objV, r4)
            | 44 :: r4 => parseObjMember fuel r4
            | _ => none
          | none => none
        | _ => none
      | none => none
    | _ => none

end

/-- Models `JSON.parse`: one JSON value covering the whole input (up to
whitespace), `none` where `JSON.parse` throws. -/
def jsonParse (s : Str) : Option JsValue :=
  match parseValue (s.length + 8) s with
  | some (v, rest) => if skipWs rest = [] then some v else none
  | none => none

/-- The try-block of the cursor-consuming code:
`JSON.parse(Buffer.from(cursor, "base64").toString("utf-8"))`.
`none` models the thrown-and-caught parse failure that makes the code
ignore the cursor. -/
def decodeCursorToken (tok : Str) : Option JsValue := do
  let bytes ← base64Decode tok
  let text ← utf8Decode bytes
  jsonParse text

/-- Extraction of the resume position from the parsed cursor:
`new Date(cursorData[0])` and `cursorData[1]`.  The only JSON shape that
yields a usable position is an array whose first two elements are
strings of which the first parses as a date; every other shape produces
an invalid `Date` or a non-string id filter value, which Prisma rejects
with a thrown validation error (`none`). -/
def evalCursorValue : JsValue → Option (Nat × Str)
  | .arrV (.strV d :: .strV i :: _) => (parseIso d).map (fun t => (t, i))
  | _ => none

/-- The cursor token issued by the search strategy:
`Buffer.from(JSON.stringify([created_at.toISOString(), id])).toString("base64")`. -/
def encodeCursor (t : Nat) (id : Str) : Str :=
  base64Encode (utf8Encode (jsonPairEncode (msToIso t) id))

/-- The full, successful decode path applied to a consumed cursor: the
`(timestamp, id)` resume position, or `none` when any stage fails. -/
def decodeCursor (tok : Str) : Option (Nat × Str) :=
  (decodeCursorToken tok).bind evalCursorValue

/-- The manual cursor range predicate of the search strategy:
`created_at < t OR (created_at = t AND id < cid)`. -/
def cursorPredB (t : Nat) (cid : Str) (o : Order) : Bool :=
  decide (o.created_at < t)
    || (o.created_at == t && strLtB o.id cid)

/-- The tail of the search strategy after its `where` clause has been
assembled: fetch `limit + 1` rows under
`orderBy: [{ created_at: "desc" }, { id: "desc" }]`; when the extra row
arrives, read `orders[limit - 1]` (a JavaScript `undefined` when
`limit = 0`, whose `.created_at` access throws, modelled `none`), encode
its position as the next cursor and `pop()` the extra row. -/
def runSearchQuery (db : List Order) (w : Order → Bool) (limit : Nat) :
    Option PageResult :=
  let orders := (dbQuery db w leB).take (limit + 1)
  if limit < orders.length then
    match limit with
    | 0 => none
    | lim + 1 =>
      match orders.get? lim with
      | none => none
      | some lastOrder =>
        some { orders := orders.dropLast,
               nextCursor := some (encodeCursor lastOrder.created_at lastOrder.id) }
  else
    some { orders := orders, nextCursor := none }

/-- The `where` clause the search strategy uses when no usable cursor
condition exists: scope and filters plus the search `OR` block. -/
def searchWhere (args : GetPaginatedOrdersOptions) (s : Str) (o : Order) : Bool :=
  baseWhere args o && searchMatch s o

/-- The `where` clause the search strategy uses once a cursor condition
has been built: the object spread `{ ...where, ...cursorCondition }`
overwrites the `OR` key, so the search `OR` block is replaced by the
cursor's `OR` range predicate and the text match is dropped. -/
def cursorWhere (args : GetPaginatedOrdersOptions) (t : Nat) (cid : Str)
    (o : Order) : Bool :=
  baseWhere args o && cursorPredB t cid o

/-- The dispatcher and search strategy,
`OrderRepository.getPaginatedShopOrders` (shop.services.ts lines
493-570).  A falsy `searchTerm` (absent or empty) delegates to
`getPaginatedShopOrdersFromDB` without the search term; otherwise the
search strategy runs with a manually reconstructed cursor condition. -/
def getPaginatedShopOrders (db : List Order)
    (args : GetPaginatedOrdersOptions) : Option PageResult :=
  match args.searchTerm with
  | none => some (getPaginatedShopOrdersFromDB db { args with searchTerm := none })
  | some s =>
    if s = [] then
      some (getPaginatedShopOrdersFromDB db { args with searchTerm := none })
    else
      match args.cursor with
      | none => runSearchQuery db (searchWhere args s) args.limit
      | some tok =>
        match decodeCursorToken tok with
        | none => runSearchQuery db (searchWhere args s) args.limit
        | some v =>
          match evalCursorValue v with
          | none => none
          | some tc => runSearchQuery db (cursorWhere args tc.1 tc.2) args.limit

/-- The field overwrite applied by `OrderRepository.updateStatus`
(shop.services.ts lines 464-480): `order_status` is always written;
`assigned_to` and `actual_delivery_time` are `undefined` when not
passed, and Prisma leaves a field with an `undefined` value
unchanged. -/
def applyStatusUpdate (o : Order) (st : OrderStatus) (a : Option Str)
    (adt : Option Nat) : Order :=
  { o with
    order_status := st,
    assigned_to := match a with
                   | none => o.assigned_to
                   | some x => some x,
    actual_delivery_time := match adt with
                            | none => o.actual_delivery_time
                            | some x => some x }

/-- `OrderRepository.updateStatus`: `prisma.order.update` on the row with
the given id, returning the updated row and the updated table; `none`
models the error Prisma throws when no row matches. -/
def updateStatus (db : List Order) (order_id : Str) (st : OrderStatus)
    (a : Option Str) (adt : Option Nat) : Option (Order × List Order) :=
  match db.find? (fun o => o.id == order_id) with
  | none => none
  | some o =>
    some (applyStatusUpdate o st a adt,
      db.map (fun x => if x.id == order_id then applyStatusUpdate x st a adt else x))

/-- `OrderRepository.batchUpdateStatus` (shop.services.ts lines 482-492):
`prisma.order.updateMany` over `id: { in: order_ids }`, returning the
updated table and the `BatchPayload` count of matched rows. -/
def batchUpdateStatus (db : List Order) (order_ids : List Str)
    (st : OrderStatus) : List Order × Nat :=
  (db.map (fun o =>
      if order_ids.contains o.id then { o with order_status := st } else o),
   (db.filter (fun o => order_ids.contains o.id)).length)

/-! ### Round-trip of the codec layers -/

theorem daysInYear_ge (y : Nat) : 365 ≤ daysInYear y := by
  unfold daysInYear; split <;> omega

theorem daysInYear_eq (y : Nat) : daysInYear y
    = if (y % 4 = 0 ∧ ¬ y % 100 = 0) ∨ y % 400 = 0 then 366 else 365 := by
  unfold daysInYear isLeap
  by_cases c : (y % 4 = 0 ∧ ¬ y % 100 = 0) ∨ y % 400 = 0
  · rw [if_pos c]
    have hb : ((y % 4 == 0 && y % 100 != 0) || y % 400 == 0) = true := by
      rcases c with ⟨c4, c100⟩ | c400
      · simp [c4, c100]
      · simp [c400]
    rw [hb, if_pos rfl]
  · rw [if_neg c]
    push_neg at c
    have hb : ((y % 4 == 0 && y % 100 != 0) || y % 400 == 0) = false := by
      obtain ⟨c1, c2⟩ := c
      by_cases h4 : y % 4 = 0
      · have := c1 h4
        simp [h4, this, c2]
      · simp [h4, c2]
    rw [hb]
    simp

theorem rawDays_succ {y : Nat} (h : 1 ≤ y) :
    rawDays (y + 1) = rawDays y + daysInYear y := by
  rw [daysInYear_eq]
  unfold rawDays
  simp only []
  have h1 : y + 1 - 1 = y := by omega
  rw [h1]
  by_cases c : (y % 4 = 0 ∧ ¬ y % 100 = 0) ∨ y % 400 = 0
  · rw [if_pos c]
    rcases c with ⟨c4, c100⟩ | c400 <;> omega
  · rw [if_neg c]
    push_neg at c
    obtain ⟨c1, c2⟩ := c
    by_cases h4 : y % 4 = 0
    · have := c1 h4
      omega
    · omega

theorem rawDays_mono {a b : Nat} (h1 : 1 ≤ a) (h : a ≤ b) :
    rawDays a ≤ rawDays b := by
  induction b with
  | zero => omega
  | succ b ih =>
    by_cases h2 : a ≤ b
    · have := ih h2
      have := rawDays_succ (show 1 ≤ b by omega)
      omega
    · have : a = b + 1 := by omega
      rw [this]

theorem daysUpTo_succ {y : Nat} (h : 1970 ≤ y) :
    daysUpTo (y + 1) = daysUpTo y + daysInYear y := by
  unfold daysUpTo
  rw [if_neg (show ¬ y + 1 ≤ 1970 by omega)]
  by_cases h2 : y ≤ 1970
  · have hy : y = 1970 := by omega
    subst hy
    rw [if_pos (Nat.le_refl 1970)]
    have := rawDays_succ (show 1 ≤ 1970 by omega)
    omega
  · rw [if_neg h2]
    have := rawDays_succ (show 1 ≤ y by omega)
    have := rawDays_mono (show 1 ≤ 1970 by omega) (show 1970 ≤ y by omega)
    omega

theorem daysUpTo_mono {y1 y2 : Nat} (h : y1 ≤ y2) : daysUpTo y1 ≤ daysUpTo y2 := by
  unfold daysUpTo
  by_cases h1 : y1 ≤ 1970
  · rw [if_pos h1]
    omega
  · rw [if_neg h1, if_neg (show ¬ y2 ≤ 1970 by omega)]
    have := rawDays_mono (show 1 ≤ y1 by omega) h
    omega

theorem yearSplitAux_spec : ∀ (f y d : Nat), d < f → 1970 ≤ y →
    (yearSplitAux f y d).2 < daysInYear (yearSplitAux f y d).1 ∧
    y ≤ (yearSplitAux f y d).1 ∧
    daysUpTo (yearSplitAux f y d).1 + (yearSplitAux f y d).2
      = daysUpTo y + d := by
  intro f
  induction f with
  | zero => omega
  | succ f ih =>
    intro y d hd hy
    rw [yearSplitAux]
    by_cases h : d < daysInYear y
    · simp [h]
    · simp only [h, if_false]
      have h365 := daysInYear_ge y
      obtain ⟨t1, t2, t3⟩ := ih (y + 1) (d - daysInYear y) (by omega) (by omega)
      refine ⟨t1, by omega, ?_⟩
      rw [t3, daysUpTo_succ hy]
      omega

theorem yearSplit_spec (d y : Nat) (hy : 1970 ≤ y) :
    (yearSplit y d).2 < daysInYear (yearSplit y d).1 ∧
    y ≤ (yearSplit y d).1 ∧
    daysUpTo (yearSplit y d).1 + (yearSplit y d).2 = daysUpTo y + d :=
  yearSplitAux_spec (d + 1) y d (Nat.lt_succ_self d) hy

theorem monthSplit_spec : ∀ (lens : List Nat) (m0 doy : Nat),
    doy < lens.sum → (∀ l ∈ lens, l ≤ 31) →
    m0 ≤ (monthSplit lens m0 doy).1 ∧
    (monthSplit lens m0 doy).1 < m0 + lens.length ∧
    1 ≤ (monthSplit lens m0 doy).2 ∧ (monthSplit lens m0 doy).2 ≤ 31 ∧
    (lens.take ((monthSplit lens m0 doy).1 - m0)).sum
      + ((monthSplit lens m0 doy).2 - 1) = doy := by
  intro lens
  induction lens with
  | nil => intro m0 doy h _; simp at h
  | cons len rest ih =>
    intro m0 doy h hb
    rw [monthSplit]
    by_cases hd : doy < len
    · have : len ≤ 31 := hb len (by simp)
      simp only [hd, if_true]
      refine ⟨Nat.le_refl _, by simp only [List.length_cons]; omega,
        by omega, by omega, ?_⟩
      simp
    · simp only [hd, if_false]
      have hsum : doy - len < rest.sum := by
        simp only [List.sum_cons] at h; omega
      have hb' : ∀ l ∈ rest, l ≤ 31 := fun l hl => hb l (by simp [hl])
      have := ih (m0 + 1) (doy - len) hsum hb'
      obtain ⟨h1, h2, h3, h4, h5⟩ := this
      refine ⟨by omega, by simp only [List.length_cons]; omega, h3, h4, ?_⟩
      have htake : (len :: rest).take ((monthSplit rest (m0 + 1) (doy - len)).1 - m0)
          = len :: rest.take ((monthSplit rest (m0 + 1) (doy - len)).1 - (m0 + 1)) := by
        have : (monthSplit rest (m0 + 1) (doy - len)).1 - m0
            = ((monthSplit rest (m0 + 1) (doy - len)).1 - (m0 + 1)) + 1 := by omega
        rw [this, List.take_succ_cons]
      rw [htake]
      simp only [List.sum_cons]
      omega

theorem monthLengths_sum (y : Nat) : (monthLengths (isLeap y)).sum = daysInYear y := by
  unfold monthLengths daysInYear
  by_cases h : isLeap y = true
  · simp [h]
  · simp only [Bool.not_eq_true] at h
    simp [h]

theorem monthLengths_le (leap : Bool) : ∀ l ∈ monthLengths leap, l ≤ 31 := by
  intro l hl
  unfold monthLengths at hl
  rcases leap with _ | _ <;> simp at hl <;> omega


theorem daysUpTo_1970 : daysUpTo 1970 = 0 := by decide

theorem daysUpTo_10000_eq : daysUpTo 10000 = 2932897 := by decide

theorem digToNat_48 {k : Nat} (h : k < 10) : digToNat (48 + k) = some k := by
  unfold digToNat
  rw [if_pos ⟨by omega, by omega⟩]
  congr 1
  omega

theorem dig4_pad {n : Nat} (h : n < 10000) :
    dig4 (48 + n / 1000 % 10) (48 + n / 100 % 10) (48 + n / 10 % 10) (48 + n % 10)
      = some n := by
  unfold dig4
  rw [digToNat_48 (by omega), digToNat_48 (by omega), digToNat_48 (by omega),
    digToNat_48 (by omega)]
  show some ((((n / 1000 % 10) * 10 + n / 100 % 10) * 10 + n / 10 % 10) * 10
    + n % 10) = some n
  congr 1
  omega

theorem dig3_pad {n : Nat} (h : n < 1000) :
    dig3 (48 + n / 100 % 10) (48 + n / 10 % 10) (48 + n % 10) = some n := by
  unfold dig3
  rw [digToNat_48 (by omega), digToNat_48 (by omega), digToNat_48 (by omega)]
  show some (((n / 100 % 10) * 10 + n / 10 % 10) * 10 + n % 10) = some n
  congr 1
  omega

theorem dig2_pad {n : Nat} (h : n < 100) :
    dig2 (48 + n / 10 % 10) (48 + n % 10) = some n := by
  unfold dig2
  rw [digToNat_48 (by omega), digToNat_48 (by omega)]
  show some ((n / 10 % 10) * 10 + n % 10) = some n
  congr 1
  omega

theorem parseIso_pads (yv mv dv hv iv sv msv : Nat) :
    parseIso (pad4 yv ++ [45] ++ pad2 mv ++ [45] ++ pad2 dv ++ [84]
        ++ pad2 hv ++ [58] ++ pad2 iv ++ [58] ++ pad2 sv ++ [46] ++ pad3 msv ++ [90])
      = match dig4 (48 + yv / 1000 % 10) (48 + yv / 100 % 10) (48 + yv / 10 % 10)
            (48 + yv % 10),
          dig2 (48 + mv / 10 % 10) (48 + mv % 10),
          dig2 (48 + dv / 10 % 10) (48 + dv % 10),
          dig2 (48 + hv / 10 % 10) (48 + hv % 10),
          dig2 (48 + iv / 10 % 10) (48 + iv % 10),
          dig2 (48 + sv / 10 % 10) (48 + sv % 10),
          dig3 (48 + msv / 100 % 10) (48 + msv / 10 % 10) (48 + msv % 10) with
        | some y, some m, some d, some hh, some mi, some ss, some ms =>
          some (mkIsoMs y m d hh mi ss ms)
        | _, _, _, _, _, _, _ => none := rfl

/-- Round-trip of the date layer: parsing the ISO string printed for an
epoch-millisecond count within the four-digit-year range recovers the
count. -/
theorem parseIso_msToIso {t : Nat} (h : t ≤ isoMaxMs) :
    parseIso (msToIso t) = some t := by
  have hdays : t / 86400000 < daysUpTo 10000 := by
    rw [daysUpTo_10000_eq]
    unfold isoMaxMs at h
    omega
  obtain ⟨hdoy, hy1970, hsum⟩ := yearSplit_spec (t / 86400000) 1970 (Nat.le_refl _)
  rw [daysUpTo_1970] at hsum
  set y := (yearSplit 1970 (t / 86400000)).1 with hy
  set doy := (yearSplit 1970 (t / 86400000)).2 with hdoy2
  have hy9999 : y ≤ 9999 := by
    by_contra hc
    have := daysUpTo_mono (show 10000 ≤ y by omega)
    omega
  have hdoySum : doy < (monthLengths (isLeap y)).sum := by
    rw [monthLengths_sum]; exact hdoy
  obtain ⟨hm1, hm2, hd1, hd31, hmd⟩ :=
    monthSplit_spec (monthLengths (isLeap y)) 1 doy hdoySum (monthLengths_le _)
  set m := (monthSplit (monthLengths (isLeap y)) 1 doy).1 with hm
  set d := (monthSplit (monthLengths (isLeap y)) 1 doy).2 with hd
  have hmlen : (monthLengths (isLeap y)).length = 12 := by
    unfold monthLengths; rcases isLeap y with _ | _ <;> rfl
  rw [hmlen] at hm2
  set rem := t % 86400000 with hrem
  have hremlt : rem < 86400000 := Nat.mod_lt t (by omega)
  have hiso : msToIso t
      = pad4 y ++ [45] ++ pad2 m ++ [45] ++ pad2 d ++ [84]
        ++ pad2 (rem / 3600000) ++ [58] ++ pad2 (rem % 3600000 / 60000) ++ [58]
        ++ pad2 (rem % 60000 / 1000) ++ [46] ++ pad3 (rem % 1000) ++ [90] := by
    rw [hm, hd, hdoy2, hy, hrem]
    rfl
  rw [hiso, parseIso_pads]
  rw [dig4_pad (show y < 10000 by omega), dig2_pad (show m < 100 by omega),
    dig2_pad (show d < 100 by omega),
    dig2_pad (show rem / 3600000 < 100 by omega),
    dig2_pad (show rem % 3600000 / 60000 < 100 by omega),
    dig2_pad (show rem % 60000 / 1000 < 100 by omega),
    dig3_pad (show rem % 1000 < 1000 by omega)]
  show some (mkIsoMs y m d (rem / 3600000) (rem % 3600000 / 60000)
    (rem % 60000 / 1000) (rem % 1000)) = some t
  congr 1
  unfold mkIsoMs
  have hdays2 : daysUpTo y + ((monthLengths (isLeap y)).take (m - 1)).sum + (d - 1)
      = t / 86400000 := by omega
  rw [hdays2]
  have := Nat.div_add_mod t 86400000
  omega

/-- A list of genuine Unicode code points (the values a JavaScript
string can carry, modulo surrogates, which never appear in the data this
codec handles). -/
def ValidStr (s : Str) : Prop := ∀ c ∈ s, c < 1114112

instance : DecidablePred ValidStr := fun s =>
  inferInstanceAs (Decidable (∀ c ∈ s, c < 1114112))

theorem utf8Decode_encodeChar {c : Nat} (h : c < 1114112) (rest : List Nat) :
    utf8Decode (utf8EncodeChar c ++ rest) = (utf8Decode rest).map (c :: ·) := by
  unfold utf8EncodeChar
  by_cases h1 : c < 128
  · rw [if_pos h1]
    show utf8Decode (c :: rest) = _
    simp only [utf8Decode]
    rw [if_pos h1]
  · rw [if_neg h1]
    by_cases h2 : c < 2048
    · rw [if_pos h2]
      show utf8Decode ((192 + c / 64) :: (128 + c % 64) :: rest) = _
      simp only [utf8Decode]
      rw [if_neg (by omega), if_pos (by omega)]
      simp only [utf8DecodeCont]
      rw [if_pos (by omega)]
      have he : (192 + c / 64 - 192) * 64 + (128 + c % 64 - 128) = c := by omega
      rw [he]
    · rw [if_neg h2]
      by_cases h3 : c < 65536
      · rw [if_pos h3]
        show utf8Decode ((224 + c / 4096) :: (128 + c / 64 % 64)
          :: (128 + c % 64) :: rest) = _
        simp only [utf8Decode]
        rw [if_neg (by omega), if_neg (by omega), if_pos (by omega)]
        simp only [utf8DecodeCont]
        rw [if_pos (by omega), if_pos (by omega)]
        have he : ((224 + c / 4096 - 224) * 64 + (128 + c / 64 % 64 - 128)) * 64
            + (128 + c % 64 - 128) = c := by omega
        rw [he]
      · rw [if_neg h3]
        show utf8Decode ((240 + c / 262144) :: (128 + c / 4096 % 64)
          :: (128 + c / 64 % 64) :: (128 + c % 64) :: rest) = _
        simp only [utf8Decode]
        rw [if_neg (by omega), if_neg (by omega), if_neg (by omega),
          if_pos (by omega)]
        simp only [utf8DecodeCont]
        rw [if_pos (by omega), if_pos (by omega), if_pos (by omega)]
        have he : (((240 + c / 262144 - 240) * 64 + (128 + c / 4096 % 64 - 128)) * 64
            + (128 + c / 64 % 64 - 128)) * 64 + (128 + c % 64 - 128) = c := by omega
        rw [he]

theorem utf8_roundtrip {s : Str} (h : ValidStr s) :
    utf8Decode (utf8Encode s) = some s := by
  induction s with
  | nil => rfl
  | cons c cs ih =>
    have hc : c < 1114112 := h c (by simp)
    have hcs : ValidStr cs := fun x hx => h x (by simp [hx])
    show utf8Decode (utf8EncodeChar c ++ utf8Encode cs) = _
    rw [utf8Decode_encodeChar hc, ih hcs]
    rfl

theorem utf8Encode_bytes_lt (s : Str) (hv : ValidStr s) :
    ∀ b ∈ utf8Encode s, b < 256 := by
  induction s with
  | nil => intro b hb; simp [utf8Encode] at hb
  | cons c cs ih =>
    intro b hb
    have hc : c < 1114112 := hv c (by simp)
    have hcs : ValidStr cs := fun x hx => hv x (by simp [hx])
    rw [show utf8Encode (c :: cs) = utf8EncodeChar c ++ utf8Encode cs from rfl] at hb
    rcases List.mem_append.mp hb with hb | hb
    · unfold utf8EncodeChar at hb
      by_cases h1 : c < 128
      · rw [if_pos h1] at hb
        simp at hb
        omega
      · rw [if_neg h1] at hb
        by_cases h2 : c < 2048
        · rw [if_pos h2] at hb
          simp at hb
          rcases hb with hb | hb <;> omega
        · rw [if_neg h2] at hb
          by_cases h3 : c < 65536
          · rw [if_pos h3] at hb
            simp at hb
            rcases hb with hb | hb | hb <;> omega
          · rw [if_neg h3] at hb
            simp at hb
            rcases hb with hb | hb | hb | hb <;> omega
    · exact ih hcs b hb

theorem b64Val_b64Char {n : Nat} (h : n < 64) : b64Val (b64Char n) = some n := by
  have hall : ∀ m : Fin 64, b64Val (b64Char m.val) = some m.val := by decide
  exact hall ⟨n, h⟩

theorem b64Char_ne_61 (n : Nat) : b64Char n ≠ 61 := by
  unfold b64Char
  split_ifs <;> omega

theorem base64_roundtrip : ∀ (l : List Nat), (∀ b ∈ l, b < 256) →
    base64Decode (base64Encode l) = some l := by
  intro l
  induction l using base64Encode.induct with
  | case1 =>
    intro _
    rfl
  | case2 b0 =>
    intro hb
    have h0 : b0 < 256 := hb b0 (by simp)
    have e0 := b64Val_b64Char (show b0 / 4 < 64 by omega)
    have e1 := b64Val_b64Char (show b0 % 4 * 16 < 64 by omega)
    have hv : b0 % 4 * 16 % 16 = 0 := by omega
    simp only [base64Encode, base64Decode, e0, e1, hv, and_true, true_and,
      if_true, eq_self_iff_true, List.nil_eq, and_self, ite_true]
    have he : b0 / 4 * 4 + b0 % 4 * 16 / 16 = b0 := by omega
    rw [he]
  | case3 b0 b1 =>
    intro hb
    have h0 : b0 < 256 := hb b0 (by simp)
    have h1 : b1 < 256 := hb b1 (by simp)
    have e0 := b64Val_b64Char (show b0 / 4 < 64 by omega)
    have e1 := b64Val_b64Char (show b0 % 4 * 16 + b1 / 16 < 64 by omega)
    have e2 := b64Val_b64Char (show b1 % 16 * 4 < 64 by omega)
    have hne2 := b64Char_ne_61 (b1 % 16 * 4)
    have hv : b1 % 16 * 4 % 4 = 0 := by omega
    simp only [base64Encode, base64Decode, e0, e1, e2, hne2, hv, and_true,
      true_and, if_true, if_false, eq_self_iff_true, and_self, ite_true,
      ite_false]
    have he1 : b0 / 4 * 4 + (b0 % 4 * 16 + b1 / 16) / 16 = b0 := by omega
    have he2 : (b0 % 4 * 16 + b1 / 16) % 16 * 16 + b1 % 16 * 4 / 4 = b1 := by omega
    rw [he1, he2]
  | case4 b0 b1 b2 bs ih =>
    intro hb
    have h0 : b0 < 256 := hb b0 (by simp)
    have h1 : b1 < 256 := hb b1 (by simp)
    have h2 : b2 < 256 := hb b2 (by simp)
    have hbs : ∀ b ∈ bs, b < 256 := fun b hb2 => hb b (by simp [hb2])
    have e0 := b64Val_b64Char (show b0 / 4 < 64 by omega)
    have e1 := b64Val_b64Char (show b0 % 4 * 16 + b1 / 16 < 64 by omega)
    have e2 := b64Val_b64Char (show b1 % 16 * 4 + b2 / 64 < 64 by omega)
    have e3 := b64Val_b64Char (show b2 % 64 < 64 by omega)
    have hne2 := b64Char_ne_61 (b1 % 16 * 4 + b2 / 64)
    have hne3 := b64Char_ne_61 (b2 % 64)
    simp only [base64Encode, base64Decode, e0, e1, e2, e3, hne2, hne3,
      ih hbs, Option.map_some, if_false, ite_false]
    have he1 : b0 / 4 * 4 + (b0 % 4 * 16 + b1 / 16) / 16 = b0 := by omega
    have he2 : (b0 % 4 * 16 + b1 / 16) % 16 * 16 + (b1 % 16 * 4 + b2 / 64) / 4 = b1 := by
      omega
    have he3 : (b1 % 16 * 4 + b2 / 64) % 4 * 64 + b2 % 64 = b2 := by omega
    rw [he1, he2, he3]
    rfl

theorem hexVal_hexDigit {k : Nat} (h : k < 16) : hexVal (hexDigit k) = some k := by
  have hall : ∀ m : Fin 16, hexVal (hexDigit m.val) = some m.val := by decide
  exact hall ⟨k, h⟩

theorem parseStringBody_escStr : ∀ (s rest : Str),
    parseStringBody (escStr s ++ (34 :: rest)) = some (s, rest) := by
  intro s
  induction s with
  | nil =>
    intro rest
    show parseStringBody (34 :: rest) = some ([], rest)
    simp [parseStringBody]
  | cons c cs ih =>
    intro rest
    show parseStringBody (escCp c ++ escStr cs ++ (34 :: rest)) = some (c :: cs, rest)
    unfold escCp
    by_cases h34 : c = 34
    · subst h34
      rw [if_pos rfl]
      simp [parseStringBody, parseEscape, unescape, ih rest]
    · rw [if_neg h34]
      by_cases h92 : c = 92
      · subst h92
        rw [if_pos rfl]
        simp [parseStringBody, parseEscape, unescape, ih rest]
      · rw [if_neg h92]
        by_cases h8 : c = 8
        · subst h8
          rw [if_pos rfl]
          simp [parseStringBody, parseEscape, unescape, ih rest]
        · rw [if_neg h8]
          by_cases h9 : c = 9
          · subst h9
            rw [if_pos rfl]
            simp [parseStringBody, parseEscape, unescape, ih rest]
          · rw [if_neg h9]
            by_cases h10 : c = 10
            · subst h10
              rw [if_pos rfl]
              simp [parseStringBody, parseEscape, unescape, ih rest]
            · rw [if_neg h10]
              by_cases h12 : c = 12
              · subst h12
                rw [if_pos rfl]
                simp [parseStringBody, parseEscape, unescape, ih rest]
              · rw [if_neg h12]
                by_cases h13 : c = 13
                · subst h13
                  rw [if_pos rfl]
                  simp [parseStringBody, parseEscape, unescape, ih rest]
                · rw [if_neg h13]
                  by_cases hc32 : c < 32
                  · rw [if_pos hc32]
                    show parseStringBody (92 :: 117 :: 48 :: 48 :: hexDigit (c / 16)
                        :: hexDigit (c % 16) :: (escStr cs ++ (34 :: rest)))
                      = some (c :: cs, rest)
                    have e48 : hexVal 48 = some 0 := rfl
                    have eh1 := hexVal_hexDigit (show c / 16 < 16 by omega)
                    have eh2 := hexVal_hexDigit (show c % 16 < 16 by omega)
                    simp only [parseStringBody]
                    rw [if_neg (show ¬ (92 : Nat) = 34 by decide)]
                    simp only [if_true]
                    simp only [parseEscape, if_true]
                    simp only [parseHex4, e48, eh1, eh2, ih rest, Option.map_some]
                    have hv : ((0 * 16 + 0) * 16 + c / 16) * 16 + c % 16 = c := by
                      omega
                    rw [hv]
                    rfl
                  · rw [if_neg hc32]
                    simp only [List.cons_append, List.nil_append]
                    simp only [parseStringBody]
                    rw [if_neg h34, if_neg h92, if_neg hc32, ih rest]
                    rfl

theorem skipWs_cons {c : Nat} (h : ¬ (c = 32 ∨ c = 9 ∨ c = 10 ∨ c = 13)) (r : Str) :
    skipWs (c :: r) = c :: r := by
  simp only [skipWs, h, if_false]

theorem parseValue_pair (k : Nat) (a b : Str) :
    parseValue (k + 4) (jsonPairEncode a b)
      = some (.arrV [.strV a, .strV b], []) := by
  unfold jsonPairEncode
  simp only [List.append_assoc, List.cons_append, List.nil_append]
  show parseValue ((k + 3) + 1) _ = _
  simp only [parseValue]
  rw [skipWs_cons (by decide)]
  show parseArrayBody ((k + 2) + 1) _ = _
  simp only [parseArrayBody]
  rw [skipWs_cons (by decide)]
  show (match parseValue ((k + 1) + 1)
      (34 :: (escStr a ++ 34 :: 44 :: 34 :: (escStr b ++ 34 :: 93 :: []))) with
    | some (v, r) => parseArrayTail (k + 2) [v] r
    | none => none) = _
  simp only [parseValue]
  rw [skipWs_cons (by decide)]
  show (match Option.map (fun p => (JsValue.strV p.1, p.2))
      (parseStringBody (escStr a ++ 34 :: 44 :: 34 :: (escStr b ++ 34 :: 93 :: []))) with
    | some (v, r) => parseArrayTail (k + 2) [v] r
    | none => none) = _
  rw [parseStringBody_escStr a (44 :: 34 :: (escStr b ++ 34 :: 93 :: []))]
  show parseArrayTail ((k + 1) + 1) [JsValue.strV a]
    (44 :: 34 :: (escStr b ++ 34 :: 93 :: [])) = _
  simp only [parseArrayTail]
  rw [skipWs_cons (by decide)]
  show (match parseValue (k + 1) (34 :: (escStr b ++ 34 :: 93 :: [])) with
    | some (v, r2) => parseArrayTail (k + 1) (v :: [JsValue.strV a]) r2
    | none => none) = _
  show (match parseValue ((k) + 1) (34 :: (escStr b ++ 34 :: 93 :: [])) with
    | some (v, r2) => parseArrayTail (k + 1) (v :: [JsValue.strV a]) r2
    | none => none) = _
  simp only [parseValue]
  rw [skipWs_cons (by decide)]
  show (match Option.map (fun p => (JsValue.strV p.1, p.2))
      (parseStringBody (escStr b ++ 34 :: 93 :: [])) with
    | some (v, r2) => parseArrayTail (k + 1) (v :: [JsValue.strV a]) r2
    | none => none) = _
  rw [parseStringBody_escStr b (93 :: [])]
  show parseArrayTail ((k) + 1) [JsValue.strV b, JsValue.strV a] (93 :: []) = _
  simp only [parseArrayTail]
  rw [skipWs_cons (by decide)]
  rfl

theorem jsonParse_pair (a b : Str) :
    jsonParse (jsonPairEncode a b) = some (.arrV [.strV a, .strV b]) := by
  unfold jsonParse
  rw [show (jsonPairEncode a b).length + 8 = ((jsonPairEncode a b).length + 4) + 4
    from by omega]
  rw [parseValue_pair]
  rfl

theorem validStr_append {s1 s2 : Str} (h1 : ValidStr s1) (h2 : ValidStr s2) :
    ValidStr (s1 ++ s2) := by
  intro c hc
  rcases List.mem_append.mp hc with h | h
  · exact h1 c h
  · exact h2 c h

theorem hexDigit_le {n : Nat} (h : n < 16) : hexDigit n ≤ 102 := by
  unfold hexDigit
  split <;> omega

theorem escCp_valid {c : Nat} (h : c < 1114112) : ValidStr (escCp c) := by
  intro x hx
  unfold escCp at hx
  by_cases h34 : c = 34
  · rw [if_pos h34] at hx
    simp at hx
    omega
  · rw [if_neg h34] at hx
    by_cases h92 : c = 92
    · rw [if_pos h92] at hx
      simp at hx
      omega
    · rw [if_neg h92] at hx
      by_cases h8 : c = 8
      · rw [if_pos h8] at hx
        simp at hx
        omega
      · rw [if_neg h8] at hx
        by_cases h9 : c = 9
        · rw [if_pos h9] at hx
          simp at hx
          omega
        · rw [if_neg h9] at hx
          by_cases h10 : c = 10
          · rw [if_pos h10] at hx
            simp at hx
            omega
          · rw [if_neg h10] at hx
            by_cases h12 : c = 12
            · rw [if_pos h12] at hx
              simp at hx
              omega
            · rw [if_neg h12] at hx
              by_cases h13 : c = 13
              · rw [if_pos h13] at hx
                simp at hx
                omega
              · rw [if_neg h13] at hx
                by_cases h32 : c < 32
                · rw [if_pos h32] at hx
                  simp at hx
                  have hb1 := hexDigit_le (show c / 16 < 16 by omega)
                  have hb2 := hexDigit_le (show c % 16 < 16 by omega)
                  rcases hx with hx | hx | hx | hx | hx | hx <;> omega
                · rw [if_neg h32] at hx
                  simp at hx
                  omega

theorem validStr_escStr {s : Str} (h : ValidStr s) : ValidStr (escStr s) := by
  induction s with
  | nil => intro c hc; simp [escStr] at hc
  | cons c cs ih =>
    have hc : c < 1114112 := h c (by simp)
    have hcs : ValidStr cs := fun x hx => h x (by simp [hx])
    intro x hx
    rw [show escStr (c :: cs) = escCp c ++ escStr cs from rfl] at hx
    rcases List.mem_append.mp hx with hx | hx
    · exact escCp_valid hc x hx
    · exact ih hcs x hx

theorem validStr_pad4 (n : Nat) : ValidStr (pad4 n) := by
  intro c hc
  unfold pad4 at hc
  simp at hc
  rcases hc with h | h | h | h <;> subst h <;> omega

theorem validStr_pad3 (n : Nat) : ValidStr (pad3 n) := by
  intro c hc
  unfold pad3 at hc
  simp at hc
  rcases hc with h | h | h <;> subst h <;> omega

theorem validStr_pad2 (n : Nat) : ValidStr (pad2 n) := by
  intro c hc
  unfold pad2 at hc
  simp at hc
  rcases hc with h | h <;> subst h <;> omega

theorem validStr_single {x : Nat} (h : x < 1114112) : ValidStr [x] := by
  intro c hc
  simp at hc
  omega

theorem validStr_msToIso (t : Nat) : ValidStr (msToIso t) := by
  show ValidStr (pad4 _ ++ [45] ++ pad2 _ ++ [45] ++ pad2 _ ++ [84] ++ pad2 _
    ++ [58] ++ pad2 _ ++ [58] ++ pad2 _ ++ [46] ++ pad3 _ ++ [90])
  exact validStr_append (validStr_append (validStr_append (validStr_append
    (validStr_append (validStr_append (validStr_append (validStr_append
      (validStr_append (validStr_append (validStr_append (validStr_append
        (validStr_append (validStr_pad4 _) (validStr_single (by omega)))
        (validStr_pad2 _)) (validStr_single (by omega))) (validStr_pad2 _))
      (validStr_single (by omega))) (validStr_pad2 _))
      (validStr_single (by omega))) (validStr_pad2 _))
    (validStr_single (by omega))) (validStr_pad2 _))
    (validStr_single (by omega))) (validStr_pad3 _)) (validStr_single (by omega))

theorem validStr_jsonPairEncode {a b : Str} (ha : ValidStr a) (hb : ValidStr b) :
    ValidStr (jsonPairEncode a b) := by
  unfold jsonPairEncode
  have h2 : ValidStr [91, 34] := by intro c hc; simp at hc; omega
  have h3 : ValidStr [34, 44, 34] := by intro c hc; simp at hc; omega
  have h4 : ValidStr [34, 93] := by intro c hc; simp at hc; omega
  exact validStr_append (validStr_append (validStr_append (validStr_append
    h2 (validStr_escStr ha)) h3) (validStr_escStr hb)) h4

/-- Round-trip of the entire cursor codec: decoding the token built by
the encoder recovers the `(timestamp, id)` pair, for timestamps in the
four-digit-year range and ids made of genuine code points. -/
theorem decodeCursor_encodeCursor {t : Nat} {id : Str} (ht : t ≤ isoMaxMs)
    (hid : ValidStr id) : decodeCursor (encodeCursor t id) = some (t, id) := by
  have hjson : ValidStr (jsonPairEncode (msToIso t) id) :=
    validStr_jsonPairEncode (validStr_msToIso t) hid
  unfold decodeCursor decodeCursorToken encodeCursor
  rw [base64_roundtrip _ (utf8Encode_bytes_lt _ hjson)]
  rw [Option.bind_eq_bind, Option.some_bind]
  rw [utf8_roundtrip hjson]
  rw [Option.some_bind]
  rw [jsonParse_pair, Option.some_bind]
  show (parseIso (msToIso t)).map (fun t2 => (t2, id)) = some (t, id)
  rw [parseIso_msToIso ht]
  rfl

/-! ### Ordering facts about the two sort relations -/

theorem strLtB_trans : ∀ {a b c : Str}, strLtB a b = true → strLtB b c = true →
    strLtB a c = true := by
  intro a
  induction a with
  | nil =>
    intro b c hab hbc
    cases b with
    | nil => simp [strLtB] at hab
    | cons y bs =>
      cases c with
      | nil => simp [strLtB] at hbc
      | cons z cs => simp [strLtB]
  | cons x as ih =>
    intro b c hab hbc
    cases b with
    | nil => simp [strLtB] at hab
    | cons y bs =>
      cases c with
      | nil => simp [strLtB] at hbc
      | cons z cs =>
        simp only [strLtB] at hab hbc ⊢
        by_cases hxy : x < y
        · by_cases hyz : y < z
          · rw [if_pos (by omega)]
          · rw [if_neg hyz] at hbc
            by_cases hzy : z < y
            · simp [hzy] at hbc
            · rw [if_neg hzy] at hbc
              have : y = z := by omega
              subst this
              rw [if_pos hxy]
        · rw [if_neg hxy] at hab
          by_cases hyx : y < x
          · simp [hyx] at hab
          · rw [if_neg hyx] at hab
            have : x = y := by omega
            subst this
            by_cases hxz : x < z
            · rw [if_pos hxz]
            · rw [if_neg hxz] at hbc ⊢
              by_cases hzx : z < x
              · simp [hzx] at hbc
              · rw [if_neg hzx] at hbc ⊢
                exact ih hab hbc

theorem strLtB_total : ∀ (a b : Str), strLtB a b = true ∨ strLtB b a = true ∨ a = b := by
  intro a
  induction a with
  | nil =>
    intro b
    cases b with
    | nil => right; right; rfl
    | cons y bs => left; simp [strLtB]
  | cons x as ih =>
    intro b
    cases b with
    | nil => right; left; simp [strLtB]
    | cons y bs =>
      by_cases hxy : x < y
      · left; simp [strLtB, hxy]
      · by_cases hyx : y < x
        · right; left; simp [strLtB, hyx]
        · have hx : x = y := by omega
          subst hx
          rcases ih bs with h | h | h
          · left; simp [strLtB, h]
          · right; left; simp [strLtB, h]
          · right; right; rw [h]

instance : IsTotal Order leB := by
  constructor
  intro a b
  unfold leB
  rcases Nat.lt_trichotomy a.created_at b.created_at with h | h | h
  · right; left; omega
  · rcases strLtB_total a.id b.id with h2 | h2 | h2
    · right; right; exact ⟨h, Or.inl h2⟩
    · left; right; exact ⟨h.symm, Or.inl h2⟩
    · left; right; exact ⟨h.symm, Or.inr h2.symm⟩
  · left; left; omega

instance : IsTrans Order leB := by
  constructor
  intro a b c hab hbc
  unfold leB at hab hbc ⊢
  rcases hab with h1 | ⟨h1, h1'⟩
  · rcases hbc with h2 | ⟨h2, h2'⟩
    · left; omega
    · left; omega
  · rcases hbc with h2 | ⟨h2, h2'⟩
    · left; omega
    · right
      refine ⟨by omega, ?_⟩
      rcases h1' with h1' | h1'
      · rcases h2' with h2' | h2'
        · left; exact strLtB_trans h2' h1'
        · left; rw [h2']; exact h1'
      · rcases h2' with h2' | h2'
        · left; rw [← h1']; exact h2'
        · right; rw [h2', h1']

/-- The strict pairwise ordering the spec claims for returned pages:
`x` precedes `y` only if `x`'s `(created_at, id)` key is strictly
greater lexicographically. -/
def pairGt (x y : Order) : Prop :=
  y.created_at < x.created_at
    ∨ (y.created_at = x.created_at ∧ strLtB y.id x.id = true)

instance : DecidableRel pairGt := fun _ _ => inferInstanceAs (Decidable (_ ∨ _))

theorem leB_strict {a b : Order} (h : leB a b) (hne : a.id ≠ b.id) : pairGt a b := by
  unfold leB at h
  unfold pairGt
  rcases h with h | ⟨h, h'⟩
  · left; exact h
  · rcases h' with h' | h'
    · right; exact ⟨h, h'⟩
    · exact absurd h'.symm hne

/-! ### Structure of query results and pages -/

theorem dbQuery_sorted (db : List Order) (w : Order → Bool)
    (r : Order → Order → Prop) [DecidableRel r] [IsTotal Order r]
    [IsTrans Order r] : (dbQuery db w r).Pairwise r :=
  List.sorted_insertionSort r (db.filter w)

theorem dbQuery_mem {db : List Order} {w : Order → Bool}
    {r : Order → Order → Prop} [DecidableRel r] {x : Order} :
    x ∈ dbQuery db w r ↔ x ∈ db.filter w :=
  (List.perm_insertionSort r (db.filter w)).mem_iff

theorem dbQuery_nodup_ids {db : List Order} {w : Order → Bool}
    {r : Order → Order → Prop} [DecidableRel r]
    (h : (db.map (fun o => o.id)).Nodup) :
    ((dbQuery db w r).map (fun o => o.id)).Nodup := by
  have hf : ((db.filter w).map (fun o => o.id)).Nodup :=
    h.sublist ((db.filter_sublist).map _)
  exact ((List.perm_insertionSort r (db.filter w)).map _).nodup_iff.mpr hf

theorem dbQuery_pairwiseGt {db : List Order} {w : Order → Bool}
    (h : (db.map (fun o => o.id)).Nodup) :
    (dbQuery db w leB).Pairwise pairGt := by
  have hs := dbQuery_sorted db w leB
  have hn : (dbQuery db w leB).Pairwise (fun a b => a.id ≠ b.id) :=
    List.pairwise_map.mp (dbQuery_nodup_ids h)
  exact (hs.and hn).imp (fun hab => leB_strict hab.1 hab.2)

/-- The page a positioned suffix of the sorted result yields under the
`take (limit + 1)` / `pop` protocol both strategies share. -/
def pageOf (sorted : List Order) (j limit : Nat) : PageResult :=
  let seg := (sorted.drop j).take (limit + 1)
  if limit < seg.length then
    { orders := seg.dropLast, nextCursor := seg.getLast?.map (fun o => o.id) }
  else
    { orders := seg, nextCursor := none }

theorem fromDB_eq_pageOf (db : List Order) (args : GetPaginatedOrdersOptions) :
    ∃ j, getPaginatedShopOrdersFromDB db args
      = pageOf (dbQuery db (fromDBWhere args) leA) j args.limit := by
  cases hc : args.cursor with
  | none =>
    refine ⟨0, ?_⟩
    unfold getPaginatedShopOrdersFromDB pageOf
    simp only [hc, List.drop_zero]
  | some c =>
    cases hidx : (dbQuery db (fromDBWhere args) leA).findIdx? (fun o => o.id == c) with
    | none =>
      refine ⟨(dbQuery db (fromDBWhere args) leA).length, ?_⟩
      unfold getPaginatedShopOrdersFromDB pageOf
      simp only [hc, hidx, List.drop_length]
    | some i =>
      refine ⟨i + 1, ?_⟩
      unfold getPaginatedShopOrdersFromDB pageOf
      simp only [hc, hidx]

theorem pageOf_orders_eq {sorted : List Order} {j limit : Nat} :
    (pageOf sorted j limit).orders = (sorted.drop j).take (limit + 1)
      ∨ ((pageOf sorted j limit).orders = (sorted.drop j).take limit
          ∧ limit + 1 ≤ (sorted.drop j).length) := by
  unfold pageOf
  by_cases h : limit < ((sorted.drop j).take (limit + 1)).length
  · right
    rw [if_pos h]
    have hlen : ((sorted.drop j).take (limit + 1)).length = limit + 1 := by
      rw [List.length_take] at h ⊢
      omega
    constructor
    · show ((sorted.drop j).take (limit + 1)).dropLast = _
      rw [List.dropLast_eq_take, hlen]
      simp [List.take_take]
    · rw [List.length_take] at h
      omega
  · left
    rw [if_neg h]

theorem pageOf_orders_sublist {sorted : List Order} {j limit : Nat} :
    (pageOf sorted j limit).orders.Sublist sorted := by
  rcases @pageOf_orders_eq sorted j limit with h | ⟨h, _⟩ <;>
    rw [h] <;>
    exact ((sorted.drop j).take_sublist _).trans (sorted.drop_sublist j)

theorem pageOf_cursor_spec {sorted : List Order} {j limit : Nat} {c : Str}
    (h : (pageOf sorted j limit).nextCursor = some c) :
    ∃ row, sorted[j + limit]? = some row ∧ row.id = c
      ∧ (pageOf sorted j limit).orders = (sorted.take (j + limit)).drop j := by
  unfold pageOf at h ⊢
  by_cases hlt : limit < ((sorted.drop j).take (limit + 1)).length
  · rw [if_pos hlt] at h ⊢
    have hlen : ((sorted.drop j).take (limit + 1)).length = limit + 1 := by
      rw [List.length_take] at hlt ⊢
      omega
    rw [List.getLast?_eq_getElem?, hlen] at h
    simp only [Nat.add_sub_cancel] at h
    rw [List.getElem?_take_of_lt (Nat.lt_succ_self limit),
      List.getElem?_drop] at h
    simp only [Option.map_eq_some'] at h
    obtain ⟨row, hrow, hid⟩ := h
    refine ⟨row, hrow, hid, ?_⟩
    show ((sorted.drop j).take (limit + 1)).dropLast = _
    rw [List.dropLast_eq_take, hlen]
    simp only [Nat.add_sub_cancel]
    rw [List.take_take, Nat.min_eq_left (Nat.le_succ limit), List.take_drop]
  · rw [if_neg hlt] at h
    simp at h

/-! ### Pages of the search strategy -/

theorem runSearchQuery_orders_sublist {db : List Order} {w : Order → Bool}
    {limit : Nat} {pr : PageResult}
    (h : runSearchQuery db w limit = some pr) :
    pr.orders.Sublist (dbQuery db w leB) := by
  have hsub : ((dbQuery db w leB).take (limit + 1)).Sublist (dbQuery db w leB) :=
    List.take_sublist _ _
  simp only [runSearchQuery] at h
  split at h
  · split at h
    · exact absurd h (by simp)
    · split at h
      · exact absurd h (by simp)
      · injection h with h
        rw [← h]
        exact (List.dropLast_sublist _).trans hsub
  · injection h with h
    rw [← h]
    exact hsub

/-! ### Concrete orders and requests used to instantiate the claims -/

/-- A concrete order with the given id (also used as display id), shop,
delivery address and creation time; the remaining fields are fixed
defaults. -/
def mkO (idS shopS addrS : String) (t : Nat) : Order :=
  { id := strLit idS, display_id := strLit idS, shop_id := strLit shopS,
    user_id := [], user_email := [], order_status := OrderStatus.PENDING,
    total_price := 0, created_at := t, assigned_to := none,
    actual_delivery_time := none,
    delivery_address_snapshot := strLit addrS }

def oA1 : Order := mkO "o1" "s" "x" 3000
def oA2 : Order := mkO "o2" "s" "x" 2000
def oA3 : Order := mkO "o3" "s" "x" 1000

/-- Three orders of one shop with distinct creation times. -/
def dbA : List Order := [oA1, oA2, oA3]

/-- First page of size 1, no search term. -/
def argsA1 : GetPaginatedOrdersOptions := { shop_id := strLit "s", limit := 1 }

/-- Second page of size 1: the cursor the first page issued. -/
def argsA2 : GetPaginatedOrdersOptions :=
  { shop_id := strLit "s", limit := 1, cursor := some (strLit "o2") }

def oTa : Order := mkO "a" "s" "x" 2000
def oTb : Order := mkO "b" "s" "x" 2000

/-- Two orders of one shop created at the same instant, stored in
id-ascending table order. -/
def dbTie : List Order := [oTa, oTb]

/-- A plain first-page request over `dbTie`. -/
def argsTie : GetPaginatedOrdersOptions := { shop_id := strLit "s" }

/-- The all-pass `where` predicate. -/
def wAll : Order → Bool := fun _ => true

/-- The first page of a size-1 search walk over `dbA` under `wAll`. -/
def prB1 : PageResult :=
  { orders := [oA1], nextCursor := some (encodeCursor 3000 (strLit "o1")) }

def oC6a : Order := mkO "a1" "s" "addr1 street" 3000
def oC6b : Order := mkO "b2" "s" "other road" 2000
def oC6c : Order := mkO "c3" "s" "nowhere" 1000

/-- One order matching the search term `addr1` and two that do not. -/
def dbC6 : List Order := [oC6a, oC6b, oC6c]

/-- The well-formed cursor token pointing just after `oC6a`. -/
def tokC6 : Str := encodeCursor 3000 (strLit "a1")

/-- A search request for `addr1` resuming at the cursor `tokC6`. -/
def argsC6 : GetPaginatedOrdersOptions :=
  { shop_id := strLit "s", limit := 10, cursor := some tokC6,
    searchTerm := some (strLit "addr1") }

/-- A request whose cursor is no id of any row. -/
def argsC4 : GetPaginatedOrdersOptions :=
  { shop_id := strLit "s", cursor := some (strLit "zz") }

/-- A search request whose cursor is not base64 at all. -/
def argsC4w : GetPaginatedOrdersOptions :=
  { shop_id := strLit "s", searchTerm := some (strLit "o1"),
    cursor := some (strLit "%%%") }

/-- A request whose search term is present but empty. -/
def argsC7 : GetPaginatedOrdersOptions :=
  { shop_id := strLit "s", cursor := some (strLit "o2"),
    searchTerm := some ([] : Str) }

/-- An order already in the terminal `DELIVERED` status. -/
def oC9 : Order := { mkO "d1" "s" "x" 500 with order_status := OrderStatus.DELIVERED }

def dbC9 : List Order := [oC9]

/-- A search request with an explicit limit of 0. -/
def argsC10 : GetPaginatedOrdersOptions :=
  { shop_id := strLit "s", limit := 0, searchTerm := some (strLit "o1") }

/-! ### The claims -/

/-- Claim C1: refuted as stated — walking Strategy A page by page from an
absent cursor to exhaustion does not yield every matching order exactly
once.  On `dbA` with page size 1 the first page returns `oA1` and issues
the cursor `o2`; the second page, resumed at that cursor, returns `oA3`
and ends the walk, so the matching order `oA2` is silently skipped: the
engine pops the `(limit + 1)`-th row to build the cursor and then also
skips that row when resuming (`cursor` plus `skip: 1`). -/
theorem C1_strategyA_skips_row :
    getPaginatedShopOrders dbA argsA1
        = some { orders := [oA1], nextCursor := some (strLit "o2") }
      ∧ getPaginatedShopOrders dbA argsA2
          = some { orders := [oA3], nextCursor := none }
      ∧ oA2 ∈ dbA ∧ fromDBWhere argsA1 oA2 = true
      ∧ oA2 ∉ [oA1] ∧ oA2 ∉ [oA3] := by decide

/-- Claim C2 (counterexample): Strategy A sorts by `created_at` alone —
with two orders created at the same instant it returns them in table
order `[oTa, oTb]`, and the consecutive pair violates the claimed strict
`(created_at, id)` descending order. -/
theorem C2_counterexample :
    getPaginatedShopOrders dbTie argsTie
        = some { orders := [oTa, oTb], nextCursor := none }
      ∧ ¬ pairGt oTa oTb := by decide

/-- A row passing the search strategy's manual cursor range predicate
for `x`'s key lies strictly below `x` in `(created_at, id)` order. -/
theorem pairGt_of_cursorPredB {x o : Order}
    (h : cursorPredB x.created_at x.id o = true) : pairGt x o := by
  unfold cursorPredB at h
  rw [Bool.or_eq_true, Bool.and_eq_true, decide_eq_true_iff, beq_iff_eq] at h
  exact h

/-- Claim C2 (amended): the ordering invariant does hold for Strategy B,
whose `orderBy` carries the `id` tie-break, within a page and across a
page boundary: over a table with distinct ids, consecutive orders of a
returned page are strictly decreasing in `(created_at, id)`; and when
the page issues a cursor, that cursor decodes back to the last returned
row's `(created_at, id)` key, and every row of any page fetched under
the manual cursor range predicate for that key — the first row of the
next page included — lies strictly below the last returned row.
Strategy A (`orderBy: \x7b created_at: desc \x7d` only) offers no such
guarantee. -/
theorem C2_amended {db : List Order} {w : Order → Bool} {limit : Nat}
    {pr1 : PageResult} (hnodup : (db.map (fun o => o.id)).Nodup)
    (h1 : runSearchQuery db w limit = some pr1) :
    pr1.orders.Chain' pairGt
      ∧ ∀ tok, pr1.nextCursor = some tok →
          ∃ last1, pr1.orders.getLast? = some last1
            ∧ (last1.created_at ≤ isoMaxMs → ValidStr last1.id →
                decodeCursor tok = some (last1.created_at, last1.id))
            ∧ ∀ (args : GetPaginatedOrdersOptions) (limit2 : Nat)
                (pr2 : PageResult),
                runSearchQuery db
                    (cursorWhere args last1.created_at last1.id) limit2
                  = some pr2 →
                ∀ o ∈ pr2.orders, pairGt last1 o := by
  refine ⟨((dbQuery_pairwiseGt hnodup).sublist
    (runSearchQuery_orders_sublist h1)).chain', ?_⟩
  intro tok htok
  simp only [runSearchQuery] at h1
  split at h1
  next hlt =>
    split at h1
    · exact absurd h1 (by simp)
    next lim =>
      split at h1
      · exact absurd h1 (by simp)
      next lastOrder hg =>
        injection h1 with h1
        subst h1
        have htok2 : encodeCursor lastOrder.created_at lastOrder.id = tok :=
          Option.some.inj htok
        subst htok2
        have hlen : ((dbQuery db w leB).take (lim + 1 + 1)).length
            = lim + 1 + 1 := by
          rw [List.length_take] at hlt ⊢
          omega
        refine ⟨lastOrder, ?_, fun ht hid => decodeCursor_encodeCursor ht hid, ?_⟩
        · show ((dbQuery db w leB).take (lim + 1 + 1)).dropLast.getLast?
            = some lastOrder
          rw [List.getLast?_eq_getElem?, List.length_dropLast, hlen,
            List.getElem?_dropLast, hlen]
          rw [if_pos (by omega)]
          rw [← List.get?_eq_getElem?]
          simp only [Nat.add_sub_cancel]
          exact hg
        · intro args limit2 pr2 h2 o ho
          have homem : o ∈ dbQuery db
              (cursorWhere args lastOrder.created_at lastOrder.id) leB :=
            (runSearchQuery_orders_sublist h2).subset ho
          have hcw : cursorWhere args lastOrder.created_at lastOrder.id o
              = true :=
            (List.mem_filter.mp (dbQuery_mem.mp homem)).2
          have hcp : cursorPredB lastOrder.created_at lastOrder.id o = true := by
            unfold cursorWhere at hcw
            rw [Bool.and_eq_true] at hcw
            exact hcw.2
          exact pairGt_of_cursorPredB hcp
  next hlt =>
    injection h1 with h1
    rw [← h1] at htok
    exact absurd htok (by simp)

/-- Claim C2 (witness): the amended ordering invariant at a concrete
size-1 search walk over `dbA`, whose first page returns `oA1` and
issues a cursor. -/
theorem C2_amended_witness :
    (dbA.map (fun o => o.id)).Nodup
      ∧ (prB1.orders.Chain' pairGt
          ∧ ∀ tok, prB1.nextCursor = some tok →
              ∃ last1, prB1.orders.getLast? = some last1
                ∧ (last1.created_at ≤ isoMaxMs → ValidStr last1.id →
                    decodeCursor tok = some (last1.created_at, last1.id))
                ∧ ∀ (args : GetPaginatedOrdersOptions) (limit2 : Nat)
                    (pr2 : PageResult),
                    runSearchQuery dbA
                        (cursorWhere args last1.created_at last1.id) limit2
                      = some pr2 →
                    ∀ o ∈ pr2.orders, pairGt last1 o) :=
  ⟨by decide, @C2_amended dbA wAll 1 prB1 (by decide) (by decide)⟩

/-- Claim C3 (counterexample): Strategy A's next cursor is not an
encoding of the last returned row's `(created_at, id)`: on `dbA` with
page size 1 the page is `[oA1]` but the cursor is the raw id `o2` of the
popped row `oA2` (a row the page did not return), not
`encodeCursor oA1.created_at oA1.id`. -/
theorem C3_counterexample :
    (getPaginatedShopOrdersFromDB dbA argsA1).nextCursor = some (strLit "o2")
      ∧ (getPaginatedShopOrdersFromDB dbA argsA1).orders = [oA1]
      ∧ strLit "o2" ≠ encodeCursor oA1.created_at oA1.id
      ∧ strLit "o2" = oA2.id
      ∧ oA2 ∉ (getPaginatedShopOrdersFromDB dbA argsA1).orders := by decide

/-- Claim C3 (amended): Strategy A does fetch `limit + 1` rows and
reports more pages when they arrive, but it orders by `created_at` alone
and its next cursor is the raw id of a row of the sorted result (the
popped extra row, not an encoded `(created_at, id)` pair); when a cursor
is issued, exactly `limit` rows are returned. -/
theorem C3_amended {db : List Order} {args : GetPaginatedOrdersOptions} {c : Str}
    (h : (getPaginatedShopOrdersFromDB db args).nextCursor = some c) :
    (∃ row ∈ dbQuery db (fromDBWhere args) leA, row.id = c)
      ∧ (getPaginatedShopOrdersFromDB db args).orders.length = args.limit := by
  obtain ⟨j, hj⟩ := fromDB_eq_pageOf db args
  rw [hj] at h ⊢
  obtain ⟨row, hrow, hid, horders⟩ := pageOf_cursor_spec h
  have hlt : j + args.limit < (dbQuery db (fromDBWhere args) leA).length := by
    rcases List.getElem?_eq_some.mp hrow with ⟨hl, _⟩
    exact hl
  have hmem : row ∈ dbQuery db (fromDBWhere args) leA := by
    rcases List.getElem?_eq_some.mp hrow with ⟨hl, heq⟩
    exact heq ▸ List.getElem_mem hl
  refine ⟨⟨row, hmem, hid⟩, ?_⟩
  rw [horders, List.length_drop, List.length_take]
  omega

/-- Claim C3 (witness): the amended cursor contract at a concrete
input. -/
theorem C3_amended_witness :
    (getPaginatedShopOrdersFromDB dbA argsA1).nextCursor = some (strLit "o2")
      ∧ ((∃ row ∈ dbQuery dbA (fromDBWhere argsA1) leA, row.id = strLit "o2")
          ∧ (getPaginatedShopOrdersFromDB dbA argsA1).orders.length
              = argsA1.limit) :=
  ⟨by decide, @C3_amended dbA argsA1 (strLit "o2") (by decide)⟩

/-- Claim C4 (counterexample): under Strategy A a non-decodable cursor is
not treated as the first page — the raw string `zz` matches no row id,
so the page comes back empty while the cursorless request returns the
data. -/
theorem C4_counterexample :
    getPaginatedShopOrders dbA argsC4 = some { orders := [], nextCursor := none }
      ∧ getPaginatedShopOrders dbA argsC4
          ≠ getPaginatedShopOrders dbA { argsC4 with cursor := none } := by decide

/-- Claim C4 (amended): only the search strategy degrades to the first
page, and only when the token fails base64, UTF-8 or JSON decoding (the
stage wrapped in `try/catch`); a token that parses as JSON but has the
wrong shape instead fails the request, and Strategy A treats an unknown
cursor as an empty page, not as the first one. -/
theorem C4_amended {db : List Order} {args : GetPaginatedOrdersOptions}
    {s tok : Str} (hs : args.searchTerm = some s) (hne : s ≠ [])
    (hc : args.cursor = some tok) (hdec : decodeCursorToken tok = none) :
    getPaginatedShopOrders db args
      = getPaginatedShopOrders db { args with cursor := none } := by
  simp only [getPaginatedShopOrders, hs, hc, hdec, if_neg hne]
  rfl

/-- Claim C4 (witness): a cursor that is not base64 is ignored by the
search strategy at a concrete input. -/
theorem C4_amended_witness :
    getPaginatedShopOrders dbA argsC4w
      = getPaginatedShopOrders dbA { argsC4w with cursor := none } :=
  @C4_amended dbA argsC4w (strLit "o1") (strLit "%%%") (by decide) (by decide)
    (by decide) rfl

/-- Claim C5: the cursor codec round-trips — decoding the token produced
by encoding a `(timestamp, id)` pair returns the same pair, for any
timestamp the ISO-8601 formatter can represent (year at most 9999) and
any id of valid Unicode code points. -/
theorem C5_roundtrip {t : Nat} {id : Str} (ht : t ≤ isoMaxMs)
    (hid : ValidStr id) :
    decodeCursor (encodeCursor t id) = some (t, id) :=
  decodeCursor_encodeCursor ht hid

/-- Claim C5 (witness): the round-trip at a concrete pair. -/
theorem C5_roundtrip_witness :
    1234567890123 ≤ isoMaxMs ∧ ValidStr (strLit "ck42")
      ∧ decodeCursor (encodeCursor 1234567890123 (strLit "ck42"))
          = some (1234567890123, strLit "ck42") :=
  ⟨by decide, by decide,
    @C5_roundtrip 1234567890123 (strLit "ck42") (by decide) (by decide)⟩

/-- Claim C6: refuted — with a search term and a decodable cursor the
spread `\x7b ...where, ...cursorCondition \x7d` overwrites the search
`OR` block with the cursor's `OR` range, so the text match is dropped:
on `dbC6` the request for `addr1` after cursor `tokC6` returns `oC6b`
and `oC6c`, neither of which matches the search term, while the claimed
conjunction of both predicates selects no order at all. -/
theorem C6_search_filter_dropped :
    getPaginatedShopOrders dbC6 argsC6
        = some { orders := [oC6b, oC6c], nextCursor := none }
      ∧ searchMatch (strLit "addr1") oC6b = false
      ∧ searchMatch (strLit "addr1") oC6c = false
      ∧ dbC6.filter (fun o => searchWhere argsC6 (strLit "addr1") o
          && cursorPredB 3000 (strLit "a1") o) = [] := by decide

/-- Claim C7 (counterexample): an empty search term is present yet
handled by Strategy A — the request `argsC7` (empty term, raw-id cursor)
returns exactly Strategy A's answer and differs from the search
strategy's answer, so presence alone does not select the strategy. -/
theorem C7_counterexample :
    getPaginatedShopOrders dbA argsC7
        = some (getPaginatedShopOrdersFromDB dbA { argsC7 with searchTerm := none })
      ∧ getPaginatedShopOrders dbA argsC7
          ≠ runSearchQuery dbA (searchWhere argsC7 []) argsC7.limit := by decide

/-- Claim C7 (amended): the dispatcher tests JavaScript truthiness, not
presence — an absent and an empty search term both delegate to Strategy
A with the search term dropped. -/
theorem C7_amended {db : List Order} {args : GetPaginatedOrdersOptions}
    (h : args.searchTerm = none ∨ args.searchTerm = some []) :
    getPaginatedShopOrders db args
      = some (getPaginatedShopOrdersFromDB db { args with searchTerm := none }) := by
  rcases h with h | h <;> simp [getPaginatedShopOrders, h]

/-- Claim C7 (witness): the empty-term delegation at a concrete input. -/
theorem C7_amended_witness :
    getPaginatedShopOrders dbA argsC7
      = some (getPaginatedShopOrdersFromDB dbA { argsC7 with searchTerm := none }) :=
  @C7_amended dbA argsC7 (Or.inr (by decide))

/-- The per-row step of `batchUpdateStatus` never changes an order's
id. -/
theorem batchStep_id (ids : List Str) (st : OrderStatus) (o : Order) :
    ((if ids.contains o.id then { o with order_status := st } else o) : Order).id
      = o.id := by
  by_cases hmem : ids.contains o.id
  · rw [if_pos hmem]
  · rw [if_neg hmem]

/-- Claim C8: batch status update is idempotent — running
`batchUpdateStatus` twice with the same ids and status leaves the table
exactly as after the first run (so no field of any order changes on the
second call), returns the same count both times (a `Nat`, hence
non-negative), and every targeted order ends at the requested status. -/
theorem C8_batch_idempotent (db : List Order) (ids : List Str) (st : OrderStatus) :
    (batchUpdateStatus (batchUpdateStatus db ids st).1 ids st).1
        = (batchUpdateStatus db ids st).1
      ∧ (batchUpdateStatus (batchUpdateStatus db ids st).1 ids st).2
        = (batchUpdateStatus db ids st).2
      ∧ ((batchUpdateStatus db ids st).1.filter
            (fun o => ids.contains o.id)).all
          (fun o => o.order_status == st) = true := by
  simp only [batchUpdateStatus]
  refine ⟨?_, ?_, ?_⟩
  · rw [List.map_map]
    apply List.map_congr_left
    intro o _
    simp only [Function.comp_apply, batchStep_id]
    by_cases hmem : ids.contains o.id
    · rw [if_pos hmem, if_pos hmem]
    · rw [if_neg hmem, if_neg hmem]
  · rw [List.filter_map, List.length_map]
    congr 1
    apply List.filter_congr
    intro o _
    simp only [Function.comp_apply, batchStep_id]
  · rw [List.all_eq_true]
    intro o ho
    obtain ⟨homap, hp⟩ := List.mem_filter.mp ho
    obtain ⟨x, _, rfl⟩ := List.mem_map.mp homap
    by_cases hmem : ids.contains x.id = true
    · rw [if_pos hmem]
      simp
    · rw [if_neg hmem] at hp
      exact absurd hp hmem

/-- Claim C9: `updateStatus` overwrites the status unconditionally —
whenever a row with the given id exists, the call succeeds and the
returned order carries the new status, with no hypothesis on the order's
current status (so any status may be set from any status, a terminal one
included). -/
theorem C9_updateStatus_unconditional {db : List Order} {order_id : Str}
    (st : OrderStatus) (a : Option Str) (adt : Option Nat) {o : Order}
    (h : db.find? (fun x => x.id == order_id) = some o) :
    ∃ newDb, updateStatus db order_id st a adt
        = some (applyStatusUpdate o st a adt, newDb)
      ∧ (applyStatusUpdate o st a adt).order_status = st := by
  unfold updateStatus
  rw [h]
  exact ⟨_, rfl, rfl⟩

/-- Claim C9 (witness): a `DELIVERED` (terminal) order is moved back to
`PENDING`. -/
theorem C9_witness :
    dbC9.find? (fun x => x.id == strLit "d1") = some oC9
      ∧ ∃ newDb, updateStatus dbC9 (strLit "d1") OrderStatus.PENDING none none
          = some (applyStatusUpdate oC9 OrderStatus.PENDING none none, newDb)
        ∧ (applyStatusUpdate oC9 OrderStatus.PENDING none none).order_status
            = OrderStatus.PENDING :=
  ⟨by decide, @C9_updateStatus_unconditional dbC9 (strLit "d1")
    OrderStatus.PENDING none none oC9 (by decide)⟩

/-- Claim C10: with a search term, an explicit limit of 0 and at least
one matching order, the listing fails instead of returning an empty
page: the has-more branch reads `orders[limit - 1]` (out of range when
`limit = 0`) and dereferences the absent element, modelled `none`. -/
theorem C10_zero_limit_crash {db : List Order} {args : GetPaginatedOrdersOptions}
    {s : Str} {o : Order} (hs : args.searchTerm = some s) (hne : s ≠ [])
    (hcur : args.cursor = none) (hlim : args.limit = 0)
    (ho : o ∈ db) (hw : searchWhere args s o = true) :
    getPaginatedShopOrders db args = none := by
  have hmem : o ∈ dbQuery db (searchWhere args s) leB :=
    dbQuery_mem.mpr (List.mem_filter.mpr ⟨ho, hw⟩)
  have hpos : 0 < (dbQuery db (searchWhere args s) leB).length :=
    List.length_pos.mpr (List.ne_nil_of_mem hmem)
  simp only [getPaginatedShopOrders, hs, hcur, if_neg hne]
  simp only [runSearchQuery, hlim]
  rw [if_pos (by rw [List.length_take]; omega)]

/-- Claim C10 (witness): the zero-limit failure at a concrete input. -/
theorem C10_witness : getPaginatedShopOrders dbA argsC10 = none :=
  @C10_zero_limit_crash dbA argsC10 (strLit "o1") oA1 (by decide) (by decide)
    (by decide) (by decide) (by decide) (by decide)
